import Mathlib

/-!
# Verification of the aumai-policyminer core

A shallow embedding of `src/aumai_policyminer/models.py` and
`src/aumai_policyminer/core.py` (the data model and the association-rule
extractor), together with proofs of the specification's claims about them.

Modelling conventions:
* Python `float` arithmetic is embedded as exact rational arithmetic (`ℚ`);
  `round(x, 6)` and `f"{x:.1f}"` formatting round half-to-even, as Python does.
* Python `dict`s (`Counter`s included) preserve insertion order, so they are
  embedded as association lists in which a new key is appended at the end and
  an existing key is updated in place.
* The construction-time default `generated_at=datetime.utcnow().isoformat()`
  is embedded by passing the clock reading `now` explicitly.
* Pydantic field validation is embedded by `Option`-returning constructors
  (`mkBehaviorLog`) and by `Valid` predicates that state exactly the declared
  field constraints.
-/

/-- Python scalar values that may appear in a log's `context` mapping.
A tractable fragment of Python's `Any` covering the value kinds the
repository's own tests exercise (strings, ints, bools). -/
inductive PyVal where
  | vStr (s : String)
  | vInt (n : Int)
  | vBool (b : Bool)
deriving DecidableEq, Repr

/-- Python `str(value)` on the embedded scalar values. -/
def pyStr : PyVal → String
  | .vStr s => s
  | .vInt n => toString n
  | .vBool b => if b then "True" else "False"

/-- Python `value.strip()`: remove leading and trailing whitespace. -/
def pyStrip (s : String) : String := s.trim

/-- Python `repr` of a string: quoted with `'` unless the string contains a
single quote and no double quote (then `"`), with the quote character,
backslash, and the common control characters escaped. -/
def pyReprStr (s : String) : String :=
  let q : Char := if s.contains '\'' && !(s.contains '"') then '"' else '\''
  let escChar (c : Char) : String :=
    if c = '\\' then "\\\\"
    else if c = q then "\\" ++ String.mk [q]
    else if c = '\n' then "\\n"
    else if c = '\r' then "\\r"
    else if c = '\t' then "\\t"
    else String.mk [c]
  String.mk [q] ++ String.join (s.data.map escChar) ++ String.mk [q]

/-- Round a rational to the nearest integer, ties to even
(Python's rounding mode for `round` and for `format`). -/
def halfEven (q : ℚ) : ℤ :=
  if q - (⌊q⌋ : ℚ) < 1/2 then ⌊q⌋
  else if 1/2 < q - (⌊q⌋ : ℚ) then ⌊q⌋ + 1
  else if ⌊q⌋ % 2 = 0 then ⌊q⌋ else ⌊q⌋ + 1

/-- Python `round(q, 6)`. -/
def round6 (q : ℚ) : ℚ := (halfEven (q * 1000000) : ℚ) / 1000000

/-- Python fixed-point formatting `f"{q:.df}"` for `d ≥ 1`. -/
def formatFixed (q : ℚ) (d : Nat) : String :=
  let s := halfEven (q * ((10 : ℚ) ^ d))
  let sign := if s < 0 then "-" else ""
  let ds := toString s.natAbs
  let ds := if ds.length ≤ d then String.mk (List.replicate (d + 1 - ds.length) '0') ++ ds else ds
  sign ++ ds.take (ds.length - d) ++ "." ++ ds.drop (ds.length - d)

/-- `models.BehaviorLog`: one recorded agent action in context.
`context` is a Python dict, embedded as an insertion-ordered association
list. -/
structure BehaviorLog where
  log_id : String
  agent_id : String
  timestamp : String
  action : String
  context : List (String × PyVal)
  outcome : String
deriving DecidableEq, Repr

/-- Pydantic construction of a `BehaviorLog`: the `must_not_be_blank`
validator strips `log_id`, `agent_id` and `action` and rejects values that
are blank after stripping (`models.py` lines 30–36). -/
def mkBehaviorLog (log_id agent_id action timestamp : String)
    (context : List (String × PyVal)) (outcome : String) : Option BehaviorLog :=
  if (pyStrip log_id).isEmpty || (pyStrip agent_id).isEmpty || (pyStrip action).isEmpty then
    none
  else
    some { log_id := pyStrip log_id, agent_id := pyStrip agent_id,
           timestamp := timestamp, action := pyStrip action,
           context := context, outcome := outcome }

/-- `models.MinedPolicy`: one extracted association rule. -/
structure MinedPolicy where
  policy_id : String
  antecedent : List (String × PyVal)
  consequent : String
  support : ℚ
  confidence : ℚ
  lift : ℚ
  description : String
deriving DecidableEq, Repr

/-- The pydantic field constraints on `MinedPolicy`
(`support`, `confidence` in `[0, 1]`, `lift ≥ 0`). -/
def ValidPolicy (p : MinedPolicy) : Prop :=
  0 ≤ p.support ∧ p.support ≤ 1 ∧ 0 ≤ p.confidence ∧ p.confidence ≤ 1 ∧ 0 ≤ p.lift

instance (p : MinedPolicy) : Decidable (ValidPolicy p) := by
  unfold ValidPolicy; infer_instance

/-- `models.PolicySet`: the result container (`source_logs : ℕ` encodes the
`ge=0` constraint). -/
structure PolicySet where
  name : String
  source_logs : Nat
  policies : List MinedPolicy
  generated_at : String
deriving DecidableEq, Repr

/-- Every contained policy satisfies its pydantic constraints. -/
def ValidPolicySet (ps : PolicySet) : Prop := ∀ p ∈ ps.policies, ValidPolicy p

instance (ps : PolicySet) : Decidable (ValidPolicySet ps) := by
  unfold ValidPolicySet; infer_instance

/-- `collections.Counter` update `m[k] += 1`: insertion-ordered association
list, existing key bumped in place, new key appended at the end. -/
def bump {α : Type} [DecidableEq α] : List (α × Nat) → α → List (α × Nat)
  | [], k => [(k, 1)]
  | (k', n) :: rest, k =>
      if k = k' then (k', n + 1) :: rest else (k', n) :: bump rest k

/-- `Counter` lookup `m[k]` (0 for a missing key). -/
def countOf {α : Type} [DecidableEq α] : List (α × Nat) → α → Nat
  | [], _ => 0
  | (k', n) :: rest, k => if k = k' then n else countOf rest k

/-- The `(context_key, str(context_value), action)` events one log contributes
to the counting pass, in context-iteration order. -/
def logEvents (log : BehaviorLog) : List (String × String × String) :=
  log.context.map (fun kv => (kv.1, pyStr kv.2, log.action))

/-- All counting-pass events of the input, in scan order
(`core.py` lines 137–141). -/
def events : List BehaviorLog → List (String × String × String)
  | [] => []
  | log :: logs => logEvents log ++ events logs

/-- `action_counts` (`core.py` line 129). -/
def actionCounts (logs : List BehaviorLog) : List (String × Nat) :=
  logs.foldl (fun m log => bump m log.action) []

/-- `antecedent_counts` (`core.py` line 140): one bump per event, keyed by
`(key, str_val)`. -/
def antecedentCounts (logs : List BehaviorLog) : List ((String × String) × Nat) :=
  (events logs).foldl (fun m e => bump m (e.1, e.2.1)) []

/-- `cooccurrence_counts` (`core.py` line 141): one bump per event, keyed by
the whole `(key, str_val, action)` triple. -/
def cooccurrenceCounts (logs : List BehaviorLog) : List ((String × String × String) × Nat) :=
  (events logs).foldl (fun m e => bump m e) []

/-- `support = co_count / total` (`core.py` line 147). -/
def tripleSupport (logs : List BehaviorLog) (t : (String × String × String) × Nat) : ℚ :=
  (t.2 : ℚ) / (logs.length : ℚ)

/-- `confidence = co_count / antecedent_count if antecedent_count > 0 else 0.0`
(`core.py` lines 151–152). -/
def tripleConfidence (logs : List BehaviorLog) (t : (String × String × String) × Nat) : ℚ :=
  if 0 < countOf (antecedentCounts logs) (t.1.1, t.1.2.1)
  then (t.2 : ℚ) / (countOf (antecedentCounts logs) (t.1.1, t.1.2.1) : ℚ)
  else 0

/-- `lift = confidence / action_freq if action_freq > 0 else 0.0`
(`core.py` lines 156–157). -/
def tripleLift (logs : List BehaviorLog) (t : (String × String × String) × Nat) : ℚ :=
  if 0 < (countOf (actionCounts logs) t.1.2.2 : ℚ) / (logs.length : ℚ)
  then tripleConfidence logs t / ((countOf (actionCounts logs) t.1.2.2 : ℚ) / (logs.length : ℚ))
  else 0

/-- `core.PolicyExtractor`: the three thresholds set at construction. -/
structure PolicyExtractor where
  min_support : ℚ
  min_confidence : ℚ
  min_lift : ℚ
deriving DecidableEq, Repr

/-- The extractor's default thresholds (`core.py` lines 97–101). -/
def PolicyExtractor.default : PolicyExtractor :=
  { min_support := 5/100, min_confidence := 6/10, min_lift := 1 }

/-- The loop's three `continue` filters (`core.py` lines 148, 153, 158):
a triple survives iff no threshold check skips it. -/
def passes (cfg : PolicyExtractor) (logs : List BehaviorLog)
    (t : (String × String × String) × Nat) : Bool :=
  if tripleSupport logs t < cfg.min_support then false
  else if tripleConfidence logs t < cfg.min_confidence then false
  else if tripleLift logs t < cfg.min_lift then false
  else true

/-- `f"policy_{counter:04d}"`. -/
def policyIdString (n : Nat) : String :=
  let ds := toString n
  "policy_" ++ (if ds.length < 4 then String.mk (List.replicate (4 - ds.length) '0') ++ ds else ds)

/-- The `description` f-string (`core.py` lines 170–174), built from the
un-rounded statistics. -/
def descriptionOf (k v a : String) (support confidence lf : ℚ) : String :=
  "When " ++ k ++ "=" ++ pyReprStr v ++ ", agents perform '" ++ a ++ "' with "
    ++ formatFixed (confidence * 100) 1 ++ "% confidence (support="
    ++ formatFixed (support * 100) 1 ++ "%, lift=" ++ formatFixed lf 2 ++ ")"

/-- The `MinedPolicy(...)` constructed for one surviving triple
(`core.py` lines 162–176); `c` is the already-incremented `policy_counter`. -/
def policyOfTriple (logs : List BehaviorLog) (c : Nat)
    (t : (String × String × String) × Nat) : MinedPolicy :=
  { policy_id := policyIdString c
    antecedent := [(t.1.1, PyVal.vStr t.1.2.1)]
    consequent := t.1.2.2
    support := round6 (tripleSupport logs t)
    confidence := round6 (tripleConfidence logs t)
    lift := round6 (tripleLift logs t)
    description := descriptionOf t.1.1 t.1.2.1 t.1.2.2
      (tripleSupport logs t) (tripleConfidence logs t) (tripleLift logs t) }

/-- The surviving triples, in the iteration order of
`cooccurrence_counts.items()` (first-discovery order). -/
def survivingTriples (cfg : PolicyExtractor) (logs : List BehaviorLog) :
    List ((String × String × String) × Nat) :=
  (cooccurrenceCounts logs).filter (passes cfg logs)

/-- The loop's `policy_counter` numbering: each surviving triple is turned
into a policy carrying the next counter value. -/
def numberFrom (logs : List BehaviorLog) (c : Nat) :
    List ((String × String × String) × Nat) → List MinedPolicy
  | [] => []
  | t :: ts => policyOfTriple logs c t :: numberFrom logs (c + 1) ts

/-- The `policies` list as built by the loop (`core.py` lines 143–176):
ids are assigned in discovery order, counter starting at 1. -/
def minedPolicies (cfg : PolicyExtractor) (logs : List BehaviorLog) : List MinedPolicy :=
  numberFrom logs 1 (survivingTriples cfg logs)

/-- One step of Python's stable sort, specialised to the key
`p.confidence` with `reverse=True`: an element is inserted after every
earlier element with strictly greater-or-equal... i.e. before the first
element of strictly smaller-or-equal rank; ties keep the earlier element
first. -/
def insertByConfDesc (p : MinedPolicy) : List MinedPolicy → List MinedPolicy
  | [] => [p]
  | q :: rest => if q.confidence ≤ p.confidence then p :: q :: rest
                 else q :: insertByConfDesc p rest

/-- `policies.sort(key=lambda p: p.confidence, reverse=True)`
(`core.py` line 179): a stable sort by confidence descending. -/
def sortByConfDesc : List MinedPolicy → List MinedPolicy
  | [] => []
  | p :: rest => insertByConfDesc p (sortByConfDesc rest)

/-- `PolicyExtractor.extract` (`core.py` lines 114–181). `now` is the clock
reading pydantic's `generated_at` default captures at construction. -/
def PolicyExtractor.extract (cfg : PolicyExtractor) (logs : List BehaviorLog)
    (name : String) (now : String) : PolicySet :=
  if logs.length = 0 then
    { name := name, source_logs := 0, policies := [], generated_at := now }
  else
    { name := name, source_logs := logs.length,
      policies := sortByConfDesc (minedPolicies cfg logs), generated_at := now }

/-- Python list slicing `l[:n]` for an `int` bound: a nonnegative bound takes
a prefix, a negative bound drops `|n|` elements from the end. -/
def pySliceTo {α : Type} (l : List α) (n : Int) : List α :=
  if 0 ≤ n then l.take n.toNat else l.take (l.length - (-n).toNat)

/-- `PolicySet.top_policies` (`models.py` lines 76–85):
`sorted(self.policies, key=lambda p: p.confidence, reverse=True)[:n]`. -/
def PolicySet.top_policies (ps : PolicySet) (n : Int) : List MinedPolicy :=
  pySliceTo (sortByConfDesc ps.policies) n

/-- A log whose `context` models a genuine Python dict: no duplicate keys. -/
def WellFormedLog (log : BehaviorLog) : Prop := (log.context.map Prod.fst).Nodup

instance (log : BehaviorLog) : Decidable (WellFormedLog log) := by
  unfold WellFormedLog; infer_instance

/-- All logs of the input have dict-shaped contexts. -/
def WellFormedLogs (logs : List BehaviorLog) : Prop := ∀ log ∈ logs, WellFormedLog log

instance (logs : List BehaviorLog) : Decidable (WellFormedLogs logs) := by
  unfold WellFormedLogs; infer_instance

/-! ## The generic structured (JSON-shaped) document and the pydantic
encoding/decoding of a `PolicySet` (`model_dump_json` / `model_validate`,
`core.py` lines 252–259 and `models.py` lines 61–74). -/

/-- A generic structured key/value document. Numbers carry the exact
rational value of the Python float. -/
inductive Json where
  | jNull
  | jBool (b : Bool)
  | jNum (q : ℚ)
  | jStr (s : String)
  | jArr (xs : List Json)
  | jObj (fields : List (String × Json))

/-- First-match field lookup in an object (a Python dict has unique keys). -/
def jGet (fields : List (String × Json)) (k : String) : Option Json :=
  match fields with
  | [] => none
  | (k', v) :: rest => if k = k' then some v else jGet rest k

/-- Per-element validation of a list, failing if any element fails
(pydantic validates each array element). -/
def mapMOpt {α β : Type} (f : α → Option β) : List α → Option (List β)
  | [] => some []
  | a :: l => do
      let b ← f a
      let bs ← mapMOpt f l
      some (b :: bs)

/-- Encoding of an embedded Python scalar into the document. -/
def encodePyVal : PyVal → Json
  | .vStr s => .jStr s
  | .vInt n => .jNum (n : ℚ)
  | .vBool b => .jBool b

/-- Decoding of a document scalar back into an embedded Python scalar. -/
def decodePyVal : Json → Option PyVal
  | .jStr s => some (.vStr s)
  | .jBool b => some (.vBool b)
  | .jNum q => if q.den = 1 then some (.vInt q.num) else none
  | _ => none

/-- Decode a string field. -/
def decodeStr : Json → Option String
  | .jStr s => some s
  | _ => none

/-- Decode a non-negative-integer field (pydantic `int` with `ge=0`). -/
def decodeNat : Json → Option Nat
  | .jNum q => if q.den = 1 ∧ 0 ≤ q.num then some q.num.toNat else none
  | _ => none

/-- Decode a fraction field (pydantic `float` with `ge=0.0, le=1.0`). -/
def decodeFrac01 : Json → Option ℚ
  | .jNum q => if 0 ≤ q ∧ q ≤ 1 then some q else none
  | _ => none

/-- Decode a non-negative number field (pydantic `float` with `ge=0.0`). -/
def decodeNonneg : Json → Option ℚ
  | .jNum q => if 0 ≤ q then some q else none
  | _ => none

/-- Decode the single-key `antecedent` object, preserving field order. -/
def decodeAntecedent : Json → Option (List (String × PyVal))
  | .jObj fields =>
      mapMOpt (fun kv => match decodePyVal kv.2 with
        | some v => some (kv.1, v)
        | none => none) fields
  | _ => none

/-- Encoding of one `MinedPolicy`, fields in declaration order. -/
def encodePolicy (p : MinedPolicy) : Json :=
  .jObj [("policy_id", .jStr p.policy_id),
         ("antecedent", .jObj (p.antecedent.map (fun kv => (kv.1, encodePyVal kv.2)))),
         ("consequent", .jStr p.consequent),
         ("support", .jNum p.support),
         ("confidence", .jNum p.confidence),
         ("lift", .jNum p.lift),
         ("description", .jStr p.description)]

/-- Decoding (with pydantic validation) of one `MinedPolicy`. -/
def decodePolicy (j : Json) : Option MinedPolicy :=
  match j with
  | .jObj fields => do
      let pid ← jGet fields "policy_id" >>= decodeStr
      let ante ← jGet fields "antecedent" >>= decodeAntecedent
      let cons ← jGet fields "consequent" >>= decodeStr
      let sup ← jGet fields "support" >>= decodeFrac01
      let conf ← jGet fields "confidence" >>= decodeFrac01
      let lf ← jGet fields "lift" >>= decodeNonneg
      let desc ← jGet fields "description" >>= decodeStr
      some { policy_id := pid, antecedent := ante, consequent := cons,
             support := sup, confidence := conf, lift := lf, description := desc }
  | _ => none

/-- Decode the `policies` array, preserving order. -/
def decodePolicies : Json → Option (List MinedPolicy)
  | .jArr xs => mapMOpt decodePolicy xs
  | _ => none

/-- Encoding of a `PolicySet`, fields in declaration order. -/
def encodePolicySet (ps : PolicySet) : Json :=
  .jObj [("name", .jStr ps.name),
         ("source_logs", .jNum (ps.source_logs : ℚ)),
         ("policies", .jArr (ps.policies.map encodePolicy)),
         ("generated_at", .jStr ps.generated_at)]

/-- Decoding (with pydantic validation) of a `PolicySet`. -/
def decodePolicySet (j : Json) : Option PolicySet :=
  match j with
  | .jObj fields => do
      let nm ← jGet fields "name" >>= decodeStr
      let sl ← jGet fields "source_logs" >>= decodeNat
      let pols ← jGet fields "policies" >>= decodePolicies
      let gen ← jGet fields "generated_at" >>= decodeStr
      some { name := nm, source_logs := sl, policies := pols, generated_at := gen }
  | _ => none

/-! ## Concrete inputs used by counterexamples and witnesses -/

/-- A one-context-key log literal. -/
def sampleLog (i : Nat) (k v a : String) : BehaviorLog :=
  { log_id := "l" ++ toString i, agent_id := "agent1", timestamp := "t0",
    action := a, context := [(k, PyVal.vStr v)], outcome := "success" }

/-- Thresholds that filter nothing. -/
def cfgZero : PolicyExtractor := { min_support := 0, min_confidence := 0, min_lift := 0 }

/-- A support threshold of exactly 1/3. -/
def cfgThird : PolicyExtractor := { min_support := 1/3, min_confidence := 0, min_lift := 0 }

/-- Four logs whose first-discovered surviving triple does not have the
highest confidence. -/
def logsA : List BehaviorLog :=
  [sampleLog 1 "k" "a" "x", sampleLog 2 "k" "a" "y",
   sampleLog 3 "k" "b" "y", sampleLog 4 "k" "b" "y"]

/-- Three logs producing a triple with exact support 1/3. -/
def logsB : List BehaviorLog :=
  [sampleLog 1 "k" "a" "x", sampleLog 2 "k" "a" "y", sampleLog 3 "k" "a" "y"]

/-- The top-confidence policy `cfgZero` extracts from `logsA`. -/
def polW : MinedPolicy :=
  { policy_id := "policy_0003", antecedent := [("k", PyVal.vStr "b")],
    consequent := "y", support := 1/2, confidence := 1, lift := mkRat 1333333 1000000,
    description :=
      "When k='b', agents perform 'y' with 100.0% confidence (support=50.0%, lift=1.33)" }

/-- A single log for witnessing the description format. -/
def logsC : List BehaviorLog := [sampleLog 1 "k" "b" "y"]

/-- The one policy `cfgZero` extracts from `logsC`. -/
def polC : MinedPolicy :=
  { policy_id := "policy_0001", antecedent := [("k", PyVal.vStr "b")],
    consequent := "y", support := 1, confidence := 1, lift := 1,
    description :=
      "When k='b', agents perform 'y' with 100.0% confidence (support=100.0%, lift=1.00)" }

/-- A low-confidence policy literal. -/
def polLow : MinedPolicy :=
  { policy_id := "policy_0001", antecedent := [("role", PyVal.vStr "admin")],
    consequent := "read", support := 1/2, confidence := 1/2, lift := 1,
    description := "d1" }

/-- A high-confidence policy literal. -/
def polHigh : MinedPolicy :=
  { policy_id := "policy_0002", antecedent := [("role", PyVal.vStr "editor")],
    consequent := "write", support := 1/4, confidence := 9/10, lift := 1,
    description := "d2" }

/-- A two-policy set stored in ascending confidence order. -/
def psT : PolicySet :=
  { name := "s", source_logs := 2, policies := [polLow, polHigh], generated_at := "t0" }

/-- The log `mkBehaviorLog "  log1 " " agent " " read " ...` produces. -/
def logW : BehaviorLog :=
  { log_id := "log1", agent_id := "agent", timestamp := "t0", action := "read",
    context := [], outcome := "success" }

/-! ## Counting-pass lemmas -/

theorem countOf_bump {α : Type} [DecidableEq α] (m : List (α × Nat)) (k j : α) :
    countOf (bump m k) j = if j = k then countOf m j + 1 else countOf m j := by
  induction m with
  | nil => by_cases h : j = k <;> simp [bump, countOf, h]
  | cons hd tl ih =>
    obtain ⟨k', n⟩ := hd
    by_cases hk : k = k'
    · subst hk
      by_cases hj : j = k <;> simp [bump, countOf, hj]
    · simp only [bump, if_neg hk, countOf]
      by_cases hj : j = k'
      · have hjk : ¬ j = k := fun h => hk (h.symm.trans hj)
        have hk'' : ¬ k' = k := fun h => hk h.symm
        simp [hj, hjk, hk'']
      · simp [hj, ih]

theorem countOf_foldl_bump {α β : Type} [DecidableEq α] (f : β → α) (l : List β)
    (m : List (α × Nat)) (x : α) :
    countOf (l.foldl (fun m e => bump m (f e)) m) x
      = countOf m x + l.countP (fun e => decide (f e = x)) := by
  induction l generalizing m with
  | nil => simp
  | cons e l ih =>
    rw [List.foldl_cons, ih, countOf_bump, List.countP_cons]
    by_cases h : f e = x
    · simp [h, Nat.add_assoc, Nat.add_comm 1]
    · have h' : ¬ x = f e := fun hx => h hx.symm
      simp [h, h']

theorem countOf_cooccurrenceCounts (logs : List BehaviorLog) (t : String × String × String) :
    countOf (cooccurrenceCounts logs) t
      = (events logs).countP (fun e => decide (e = t)) := by
  have h := countOf_foldl_bump (fun e => e) (events logs) [] t
  simpa [cooccurrenceCounts, countOf] using h

theorem countOf_antecedentCounts (logs : List BehaviorLog) (kv : String × String) :
    countOf (antecedentCounts logs) kv
      = (events logs).countP (fun e => decide ((e.1, e.2.1) = kv)) := by
  have h := countOf_foldl_bump (fun e => (e.1, e.2.1)) (events logs) [] kv
  simpa [antecedentCounts, countOf] using h

theorem countOf_actionCounts (logs : List BehaviorLog) (a : String) :
    countOf (actionCounts logs) a
      = logs.countP (fun log => decide (log.action = a)) := by
  have h := countOf_foldl_bump (fun log : BehaviorLog => log.action) logs [] a
  simpa [actionCounts, countOf] using h

theorem bump_keys {α : Type} [DecidableEq α] (m : List (α × Nat)) (k : α) :
    (bump m k).map Prod.fst
      = if k ∈ m.map Prod.fst then m.map Prod.fst else m.map Prod.fst ++ [k] := by
  induction m with
  | nil => simp [bump]
  | cons hd tl ih =>
    obtain ⟨k', n⟩ := hd
    by_cases hk : k = k'
    · simp [bump, hk]
    · have hk' : ¬ k' = k := fun h => hk h.symm
      by_cases hmem : k ∈ tl.map Prod.fst <;> simp [bump, hk, hk', hmem, ih]

theorem bump_keys_nodup {α : Type} [DecidableEq α] (m : List (α × Nat)) (k : α)
    (h : (m.map Prod.fst).Nodup) : ((bump m k).map Prod.fst).Nodup := by
  rw [bump_keys]
  by_cases hmem : k ∈ m.map Prod.fst
  · simpa [hmem] using h
  · rw [if_neg hmem]
    refine List.Nodup.append h (List.nodup_singleton k) ?_
    intro x hx hxk
    rw [List.mem_singleton] at hxk
    exact hmem (hxk ▸ hx)

theorem foldl_bump_keys_nodup {α β : Type} [DecidableEq α] (f : β → α) (l : List β)
    (m : List (α × Nat)) (h : (m.map Prod.fst).Nodup) :
    ((l.foldl (fun m e => bump m (f e)) m).map Prod.fst).Nodup := by
  induction l generalizing m with
  | nil => simpa using h
  | cons e l ih => exact ih _ (bump_keys_nodup _ _ h)

theorem countOf_of_mem_nodup {α : Type} [DecidableEq α] (m : List (α × Nat))
    (x : α) (n : Nat) (hnd : (m.map Prod.fst).Nodup) (hmem : (x, n) ∈ m) :
    countOf m x = n := by
  induction m with
  | nil => simp at hmem
  | cons hd tl ih =>
    obtain ⟨k', n'⟩ := hd
    rcases List.mem_cons.mp hmem with h | h
    · obtain ⟨h1, h2⟩ := Prod.mk.injEq .. ▸ h
      simp_all [countOf]
    · have hx : x ∈ tl.map Prod.fst := List.mem_map.mpr ⟨(x, n), h, rfl⟩
      have hk' : ¬ x = k' := by
        intro he
        exact (List.nodup_cons.mp (by simpa using hnd)).1 (he ▸ hx)
      simp only [countOf, if_neg hk']
      exact ih (List.nodup_cons.mp (by simpa using hnd)).2 h

theorem mem_cooccurrenceCounts_count (logs : List BehaviorLog)
    (t : (String × String × String) × Nat) (hmem : t ∈ cooccurrenceCounts logs) :
    t.2 = (events logs).countP (fun e => decide (e = t.1)) := by
  have hnd := foldl_bump_keys_nodup (fun e => e) (events logs) [] (by simp)
  have := countOf_of_mem_nodup (cooccurrenceCounts logs) t.1 t.2 hnd (by simpa using hmem)
  rw [← this, countOf_cooccurrenceCounts]

/-! ## Bounds on the triple statistics -/

theorem countP_ctx_events_le_one (ctx : List (String × PyVal)) (a : String)
    (t : String × String × String) (hnd : (ctx.map Prod.fst).Nodup) :
    ((ctx.map (fun kv => (kv.1, pyStr kv.2, a))).countP (fun e => decide (e = t))) ≤ 1 := by
  induction ctx with
  | nil => simp
  | cons kv rest ih =>
    have hnd' : (rest.map Prod.fst).Nodup := (List.nodup_cons.mp (by simpa using hnd)).2
    have hk : kv.1 ∉ rest.map Prod.fst := (List.nodup_cons.mp (by simpa using hnd)).1
    by_cases he : (kv.1, pyStr kv.2, a) = t
    · have hzero : ((rest.map (fun kv => (kv.1, pyStr kv.2, a))).countP
          (fun e => decide (e = t))) = 0 := by
        rw [List.countP_eq_zero]
        intro e hme
        obtain ⟨kv', hkv', rfl⟩ := List.mem_map.mp hme
        simp only [decide_eq_true_eq]
        intro habs
        apply hk
        have h1 : kv'.1 = kv.1 := by
          have := habs.trans he.symm
          exact (Prod.mk.injEq .. ▸ this).1
        exact h1 ▸ List.mem_map.mpr ⟨kv', hkv', rfl⟩
      simp [List.countP_cons, he, hzero]
    · simpa [List.countP_cons, he] using ih hnd'

theorem countP_events_le_length (logs : List BehaviorLog) (t : String × String × String)
    (hwf : WellFormedLogs logs) :
    (events logs).countP (fun e => decide (e = t)) ≤ logs.length := by
  induction logs with
  | nil => simp [events]
  | cons log rest ih =>
    have h1 : (logEvents log).countP (fun e => decide (e = t)) ≤ 1 :=
      countP_ctx_events_le_one log.context log.action t (hwf log (by simp))
    have h2 := ih (fun l hl => hwf l (by simp [hl]))
    calc (events (log :: rest)).countP (fun e => decide (e = t))
        = (logEvents log).countP (fun e => decide (e = t))
          + (events rest).countP (fun e => decide (e = t)) := by
          simp [events, List.countP_append]
      _ ≤ 1 + rest.length := Nat.add_le_add h1 h2
      _ = (log :: rest).length := by simp [Nat.add_comm]

theorem co_le_ante (logs : List BehaviorLog) (t : (String × String × String) × Nat)
    (hmem : t ∈ cooccurrenceCounts logs) :
    t.2 ≤ countOf (antecedentCounts logs) (t.1.1, t.1.2.1) := by
  rw [mem_cooccurrenceCounts_count logs t hmem, countOf_antecedentCounts]
  refine List.countP_mono_left ?_
  intro e _ he
  simp only [decide_eq_true_eq] at he ⊢
  rw [he]

theorem mem_cooc_logs_ne_nil (logs : List BehaviorLog)
    (t : (String × String × String) × Nat) (hmem : t ∈ cooccurrenceCounts logs) :
    logs ≠ [] := by
  intro h
  subst h
  simp [cooccurrenceCounts, events] at hmem

theorem tripleSupport_nonneg (logs : List BehaviorLog)
    (t : (String × String × String) × Nat) : 0 ≤ tripleSupport logs t := by
  unfold tripleSupport
  positivity

theorem tripleSupport_le_one (logs : List BehaviorLog)
    (t : (String × String × String) × Nat) (hwf : WellFormedLogs logs)
    (hmem : t ∈ cooccurrenceCounts logs) : tripleSupport logs t ≤ 1 := by
  have hne := mem_cooc_logs_ne_nil logs t hmem
  have hlen : 0 < logs.length := List.length_pos.mpr hne
  have hco : t.2 ≤ logs.length := by
    rw [mem_cooccurrenceCounts_count logs t hmem]
    exact countP_events_le_length logs t.1 hwf
  unfold tripleSupport
  rw [div_le_one (by exact_mod_cast hlen)]
  exact_mod_cast hco

theorem tripleConfidence_nonneg (logs : List BehaviorLog)
    (t : (String × String × String) × Nat) : 0 ≤ tripleConfidence logs t := by
  unfold tripleConfidence
  split
  · positivity
  · exact le_refl 0

theorem tripleConfidence_le_one (logs : List BehaviorLog)
    (t : (String × String × String) × Nat) (hmem : t ∈ cooccurrenceCounts logs) :
    tripleConfidence logs t ≤ 1 := by
  have hle := co_le_ante logs t hmem
  unfold tripleConfidence
  split
  · rename_i hac
    rw [div_le_one (by exact_mod_cast hac)]
    exact_mod_cast hle
  · norm_num

theorem tripleLift_nonneg (logs : List BehaviorLog)
    (t : (String × String × String) × Nat) : 0 ≤ tripleLift logs t := by
  unfold tripleLift
  split
  · rename_i haf
    exact div_nonneg (tripleConfidence_nonneg logs t) (le_of_lt haf)
  · exact le_refl 0

theorem passes_iff (cfg : PolicyExtractor) (logs : List BehaviorLog)
    (t : (String × String × String) × Nat) :
    passes cfg logs t = true
      ↔ cfg.min_support ≤ tripleSupport logs t
        ∧ cfg.min_confidence ≤ tripleConfidence logs t
        ∧ cfg.min_lift ≤ tripleLift logs t := by
  unfold passes
  split_ifs with h1 h2 h3 <;>
    simp_all [not_lt]

/-! ## Rounding bounds -/

theorem halfEven_eq_floor_or_succ (q : ℚ) :
    halfEven q = ⌊q⌋ ∨ halfEven q = ⌊q⌋ + 1 := by
  unfold halfEven
  split_ifs <;> simp

theorem halfEven_nonneg (q : ℚ) (h : 0 ≤ q) : 0 ≤ halfEven q := by
  rcases halfEven_eq_floor_or_succ q with he | he <;> rw [he]
  · exact Int.floor_nonneg.mpr h
  · have := Int.floor_nonneg.mpr h
    omega

theorem halfEven_le_int (q : ℚ) (C : ℤ) (h : q ≤ (C : ℚ)) : halfEven q ≤ C := by
  have hfl : ⌊q⌋ ≤ C := by
    have := Int.floor_le_floor h
    simpa using this
  unfold halfEven
  split_ifs with h1 h2 h3
  · exact hfl
  · have hlt : (⌊q⌋ : ℚ) < q := by linarith [Int.floor_le q]
    have : (⌊q⌋ : ℚ) < (C : ℚ) := lt_of_lt_of_le hlt h
    have : ⌊q⌋ < C := by exact_mod_cast this
    omega
  · exact hfl
  · have heq : q - (⌊q⌋ : ℚ) = 1/2 := le_antisymm (not_lt.mp h2) (not_lt.mp h1)
    have hlt : (⌊q⌋ : ℚ) < q := by linarith
    have : (⌊q⌋ : ℚ) < (C : ℚ) := lt_of_lt_of_le hlt h
    have : ⌊q⌋ < C := by exact_mod_cast this
    omega

theorem round6_nonneg (q : ℚ) (h : 0 ≤ q) : 0 ≤ round6 q := by
  unfold round6
  have : 0 ≤ halfEven (q * 1000000) := halfEven_nonneg _ (by positivity)
  positivity

theorem round6_le_one (q : ℚ) (h : q ≤ 1) : round6 q ≤ 1 := by
  unfold round6
  have hle : halfEven (q * 1000000) ≤ 1000000 := by
    refine halfEven_le_int _ 1000000 ?_
    push_cast
    linarith
  rw [div_le_one (by norm_num)]
  exact_mod_cast hle

/-! ## The stable descending sort -/

theorem insertByConfDesc_perm (p : MinedPolicy) (l : List MinedPolicy) :
    List.Perm (insertByConfDesc p l) (p :: l) := by
  induction l with
  | nil => rfl
  | cons q rest ih =>
    unfold insertByConfDesc
    split
    · rfl
    · exact (List.Perm.cons q ih).trans (List.Perm.swap p q rest)

theorem sortByConfDesc_perm (l : List MinedPolicy) : List.Perm (sortByConfDesc l) l := by
  induction l with
  | nil => rfl
  | cons p rest ih =>
    exact (insertByConfDesc_perm p (sortByConfDesc rest)).trans (List.Perm.cons p ih)

theorem insertByConfDesc_pairwise (p : MinedPolicy) (l : List MinedPolicy)
    (h : l.Pairwise (fun a b => b.confidence ≤ a.confidence)) :
    (insertByConfDesc p l).Pairwise (fun a b => b.confidence ≤ a.confidence) := by
  induction l with
  | nil => simp [insertByConfDesc]
  | cons q rest ih =>
    unfold insertByConfDesc
    split
    · rename_i hq
      refine List.Pairwise.cons ?_ h
      intro x hx
      rcases List.mem_cons.mp hx with rfl | hx'
      · exact hq
      · exact le_trans ((List.pairwise_cons.mp h).1 x hx') hq
    · rename_i hq
      have hrest := (List.pairwise_cons.mp h).2
      refine List.Pairwise.cons ?_ (ih hrest)
      intro x hx
      have hx' := (insertByConfDesc_perm p rest).mem_iff.mp hx
      rcases List.mem_cons.mp hx' with rfl | hx''
      · exact le_of_lt (not_le.mp hq)
      · exact (List.pairwise_cons.mp h).1 x hx''

theorem sortByConfDesc_pairwise (l : List MinedPolicy) :
    (sortByConfDesc l).Pairwise (fun a b => b.confidence ≤ a.confidence) := by
  induction l with
  | nil => simp [sortByConfDesc]
  | cons p rest ih => exact insertByConfDesc_pairwise p (sortByConfDesc rest) ih

theorem insertByConfDesc_filter_conf (p : MinedPolicy) (l : List MinedPolicy) (c : ℚ) :
    (insertByConfDesc p l).filter (fun x => decide (x.confidence = c))
      = if p.confidence = c
        then p :: l.filter (fun x => decide (x.confidence = c))
        else l.filter (fun x => decide (x.confidence = c)) := by
  induction l with
  | nil => by_cases hp : p.confidence = c <;> simp [insertByConfDesc, hp]
  | cons q rest ih =>
    unfold insertByConfDesc
    split
    · by_cases hp : p.confidence = c <;> simp [List.filter_cons, hp]
    · rename_i hq
      by_cases hp : p.confidence = c
      · have hqc : ¬ q.confidence = c := by
          intro h
          exact hq (le_of_eq (h.trans hp.symm))
        simp [List.filter_cons, hp, hqc, ih]
      · simp [List.filter_cons, hp, ih]

theorem sortByConfDesc_filter_conf (l : List MinedPolicy) (c : ℚ) :
    (sortByConfDesc l).filter (fun x => decide (x.confidence = c))
      = l.filter (fun x => decide (x.confidence = c)) := by
  induction l with
  | nil => rfl
  | cons p rest ih =>
    unfold sortByConfDesc
    rw [insertByConfDesc_filter_conf, ih]
    by_cases hp : p.confidence = c <;> simp [List.filter_cons, hp]

/-! ## Structure of the mined-policy list -/

theorem numberFrom_length (logs : List BehaviorLog) (c : Nat)
    (ts : List ((String × String × String) × Nat)) :
    (numberFrom logs c ts).length = ts.length := by
  induction ts generalizing c with
  | nil => rfl
  | cons t ts ih => simp [numberFrom, ih]

theorem numberFrom_map_policy_id (logs : List BehaviorLog) (c : Nat)
    (ts : List ((String × String × String) × Nat)) :
    (numberFrom logs c ts).map MinedPolicy.policy_id
      = (List.range ts.length).map (fun i => policyIdString (c + i)) := by
  induction ts generalizing c with
  | nil => rfl
  | cons t ts ih =>
    have hlen : (t :: ts).length = ts.length + 1 := rfl
    rw [hlen, List.range_succ_eq_map, List.map_cons, List.map_map]
    simp only [numberFrom, List.map_cons]
    rw [ih]
    refine congrArg₂ List.cons ?_ ?_
    · simp [policyOfTriple]
    · refine List.map_congr_left ?_
      intro i _
      simp only [Function.comp_apply]
      exact congrArg policyIdString (by omega)

theorem mem_numberFrom (logs : List BehaviorLog) (c : Nat)
    (ts : List ((String × String × String) × Nat)) (p : MinedPolicy)
    (hp : p ∈ numberFrom logs c ts) :
    ∃ n t, t ∈ ts ∧ p = policyOfTriple logs n t := by
  induction ts generalizing c with
  | nil => simp [numberFrom] at hp
  | cons t ts ih =>
    rcases List.mem_cons.mp hp with h | h
    · exact ⟨c, t, by simp, h⟩
    · obtain ⟨n, t', ht', hpt⟩ := ih (c + 1) h
      exact ⟨n, t', by simp [ht'], hpt⟩

theorem mem_minedPolicies (cfg : PolicyExtractor) (logs : List BehaviorLog)
    (p : MinedPolicy) (hp : p ∈ minedPolicies cfg logs) :
    ∃ n t, t ∈ cooccurrenceCounts logs ∧ passes cfg logs t = true
      ∧ p = policyOfTriple logs n t := by
  obtain ⟨n, t, ht, hpt⟩ := mem_numberFrom logs 1 (survivingTriples cfg logs) p hp
  have ht' := List.mem_filter.mp ht
  exact ⟨n, t, ht'.1, ht'.2, hpt⟩

theorem minedPolicies_nil (cfg : PolicyExtractor) : minedPolicies cfg [] = [] := rfl

theorem extract_policies_eq (cfg : PolicyExtractor) (logs : List BehaviorLog)
    (name now : String) :
    (cfg.extract logs name now).policies = sortByConfDesc (minedPolicies cfg logs) := by
  unfold PolicyExtractor.extract
  split
  · rename_i h
    rw [List.length_eq_zero.mp h]
    rfl
  · rfl

theorem mem_extract_policies (cfg : PolicyExtractor) (logs : List BehaviorLog)
    (name now : String) (p : MinedPolicy) :
    p ∈ (cfg.extract logs name now).policies ↔ p ∈ minedPolicies cfg logs := by
  rw [extract_policies_eq]
  exact (sortByConfDesc_perm _).mem_iff

/-! ## Characterisation of an emitted policy -/

theorem mined_policy_chars (cfg : PolicyExtractor) (logs : List BehaviorLog)
    (p : MinedPolicy) (hp : p ∈ minedPolicies cfg logs) :
    ∃ t : (String × String × String) × Nat,
      t ∈ cooccurrenceCounts logs
      ∧ cfg.min_support ≤ tripleSupport logs t
      ∧ cfg.min_confidence ≤ tripleConfidence logs t
      ∧ cfg.min_lift ≤ tripleLift logs t
      ∧ p.support = round6 (tripleSupport logs t)
      ∧ p.confidence = round6 (tripleConfidence logs t)
      ∧ p.lift = round6 (tripleLift logs t)
      ∧ p.antecedent = [(t.1.1, PyVal.vStr t.1.2.1)]
      ∧ p.consequent = t.1.2.2
      ∧ p.description = descriptionOf t.1.1 t.1.2.1 t.1.2.2
          (tripleSupport logs t) (tripleConfidence logs t) (tripleLift logs t) := by
  obtain ⟨n, t, hmem, hpass, rfl⟩ := mem_minedPolicies cfg logs p hp
  obtain ⟨h1, h2, h3⟩ := (passes_iff cfg logs t).mp hpass
  exact ⟨t, hmem, h1, h2, h3, rfl, rfl, rfl, rfl, rfl, rfl⟩

/-! ## Claim theorems -/

set_option maxRecDepth 4000 in
/-- C1 (counterexample): with no-op thresholds on `logsA`, the returned
(sorted) sequence carries ids `policy_0003, policy_0001, policy_0002` — the
i-th policy of the output does not carry the i-th identifier, so ids are not
assigned in final sorted order. -/
theorem C1_counterexample :
    ((cfgZero.extract logsA "Mined Policy Set" "t0").policies.map MinedPolicy.policy_id)
      = ["policy_0003", "policy_0001", "policy_0002"]
    ∧ ((cfgZero.extract logsA "Mined Policy Set" "t0").policies.map MinedPolicy.policy_id)
      ≠ ["policy_0001", "policy_0002", "policy_0003"] := by
  with_unfolding_all decide

/-- C1 (amended): `policy_id` values are assigned sequentially
`policy_0001, policy_0002, …` in the discovery order of the surviving triples
(the pre-sort list `minedPolicies`), and the returned sequence is a
permutation of that list. -/
theorem C1_ids_sequential_in_discovery_order (cfg : PolicyExtractor)
    (logs : List BehaviorLog) (name now : String) :
    (minedPolicies cfg logs).map MinedPolicy.policy_id
      = (List.range (minedPolicies cfg logs).length).map (fun i => policyIdString (i + 1))
    ∧ List.Perm (cfg.extract logs name now).policies (minedPolicies cfg logs) := by
  constructor
  · unfold minedPolicies
    rw [numberFrom_map_policy_id, numberFrom_length]
    refine List.map_congr_left ?_
    intro i _
    exact congrArg policyIdString (Nat.add_comm 1 i)
  · rw [extract_policies_eq]
    exact sortByConfDesc_perm _

set_option maxRecDepth 2000 in
/-- C2 (counterexample): with `min_support = 1/3` on `logsB` (three logs with
context `k=a` and actions `x, y, y`), the triple for action `x` passes the
filter with exact support `1/3` but stores `round(1/3, 6) = 0.333333 < 1/3`,
so not every emitted policy's stored field values satisfy the thresholds. -/
theorem C2_counterexample :
    ¬ (∀ p ∈ (cfgThird.extract logsB "Mined Policy Set" "t0").policies,
          cfgThird.min_support ≤ p.support) := by
  with_unfolding_all decide

/-- C2 (amended): every emitted policy stores the 6-digit roundings of exact
support/confidence/lift values that satisfy
`min_support ≤ support ≤ 1`, `min_confidence ≤ confidence ≤ 1`,
`lift ≥ min_lift`; the stored fields themselves satisfy the pydantic bounds
`0 ≤ support ≤ 1`, `0 ≤ confidence ≤ 1`, `0 ≤ lift`. -/
theorem C2_emitted_policy_bounds (cfg : PolicyExtractor) (logs : List BehaviorLog)
    (name now : String) (hwf : WellFormedLogs logs) :
    ∀ p ∈ (cfg.extract logs name now).policies,
      ∃ s c l : ℚ,
        p.support = round6 s ∧ p.confidence = round6 c ∧ p.lift = round6 l
        ∧ cfg.min_support ≤ s ∧ s ≤ 1
        ∧ cfg.min_confidence ≤ c ∧ c ≤ 1
        ∧ cfg.min_lift ≤ l
        ∧ 0 ≤ p.support ∧ p.support ≤ 1 ∧ 0 ≤ p.confidence ∧ p.confidence ≤ 1
        ∧ 0 ≤ p.lift := by
  intro p hp
  rw [mem_extract_policies] at hp
  obtain ⟨t, hmem, h1, h2, h3, hs, hc, hl, _, _, _⟩ := mined_policy_chars cfg logs p hp
  refine ⟨tripleSupport logs t, tripleConfidence logs t, tripleLift logs t,
    hs, hc, hl, h1, tripleSupport_le_one logs t hwf hmem, h2,
    tripleConfidence_le_one logs t hmem, h3, ?_, ?_, ?_, ?_, ?_⟩
  · rw [hs]; exact round6_nonneg _ (tripleSupport_nonneg logs t)
  · rw [hs]; exact round6_le_one _ (tripleSupport_le_one logs t hwf hmem)
  · rw [hc]; exact round6_nonneg _ (tripleConfidence_nonneg logs t)
  · rw [hc]; exact round6_le_one _ (tripleConfidence_le_one logs t hmem)
  · rw [hl]; exact round6_nonneg _ (tripleLift_nonneg logs t)

set_option maxRecDepth 4000 in
/-- C2 (witness): the amended bound theorem applied to `cfgThird`, `logsB`. -/
theorem C2_emitted_policy_bounds_witness :
    WellFormedLogs logsB
    ∧ ∀ p ∈ (cfgThird.extract logsB "Mined Policy Set" "t0").policies,
        ∃ s c l : ℚ,
          p.support = round6 s ∧ p.confidence = round6 c ∧ p.lift = round6 l
          ∧ cfgThird.min_support ≤ s ∧ s ≤ 1
          ∧ cfgThird.min_confidence ≤ c ∧ c ≤ 1
          ∧ cfgThird.min_lift ≤ l
          ∧ 0 ≤ p.support ∧ p.support ≤ 1 ∧ 0 ≤ p.confidence ∧ p.confidence ≤ 1
          ∧ 0 ≤ p.lift :=
  ⟨by with_unfolding_all decide,
   C2_emitted_policy_bounds cfgThird logsB "Mined Policy Set" "t0"
     (by with_unfolding_all decide)⟩

/-- C3: for every input, the emitted sequence is sorted by confidence
non-increasing, and the sort is stable: the policies of any fixed confidence
appear in exactly the discovery order of the pre-sort list `minedPolicies`. -/
theorem C3_sorted_and_stable (cfg : PolicyExtractor) (logs : List BehaviorLog)
    (name now : String) :
    ((cfg.extract logs name now).policies).Pairwise
        (fun p q => q.confidence ≤ p.confidence)
    ∧ ∀ c : ℚ,
        ((cfg.extract logs name now).policies).filter (fun p => decide (p.confidence = c))
          = (minedPolicies cfg logs).filter (fun p => decide (p.confidence = c)) := by
  rw [extract_policies_eq]
  exact ⟨sortByConfDesc_pairwise _, fun c => sortByConfDesc_filter_conf _ c⟩

set_option maxRecDepth 4000 in
/-- C4 (counterexample): two runs on identical input, configuration and name
but different construction clock readings give PolicySets that are not equal
in every field (`generated_at` differs). -/
theorem C4_counterexample :
    PolicyExtractor.default.extract [] "Mined Policy Set" "2026-01-01T00:00:00"
      ≠ PolicyExtractor.default.extract [] "Mined Policy Set" "2026-01-01T00:00:01" := by
  with_unfolding_all decide

/-- C4 (amended): two runs on the same input, configuration and name agree on
every field except `generated_at`, which records each run's construction
clock reading; with equal clock readings the outputs are fully identical. -/
theorem C4_deterministic_up_to_timestamp (cfg : PolicyExtractor)
    (logs : List BehaviorLog) (name t1 t2 : String) :
    cfg.extract logs name t1 = { cfg.extract logs name t2 with generated_at := t1 } := by
  unfold PolicyExtractor.extract
  split <;> rfl

/-- C5: extraction is total — for every well-formed input and any thresholds
the result is a valid PolicySet (every policy satisfies the pydantic field
constraints, so no construction raises), and the empty input gives the
degenerate `source_logs = 0`, no-policy result. -/
theorem C5_total_and_degenerate (cfg : PolicyExtractor) (logs : List BehaviorLog)
    (name now : String) (hwf : WellFormedLogs logs) :
    ValidPolicySet (cfg.extract logs name now)
    ∧ (logs = [] → (cfg.extract logs name now).source_logs = 0
        ∧ (cfg.extract logs name now).policies = []) := by
  constructor
  · intro p hp
    rw [mem_extract_policies] at hp
    obtain ⟨t, hmem, _, _, _, hs, hc, hl, _, _, _⟩ := mined_policy_chars cfg logs p hp
    refine ⟨?_, ?_, ?_, ?_, ?_⟩
    · rw [hs]; exact round6_nonneg _ (tripleSupport_nonneg logs t)
    · rw [hs]; exact round6_le_one _ (tripleSupport_le_one logs t hwf hmem)
    · rw [hc]; exact round6_nonneg _ (tripleConfidence_nonneg logs t)
    · rw [hc]; exact round6_le_one _ (tripleConfidence_le_one logs t hmem)
    · rw [hl]; exact round6_nonneg _ (tripleLift_nonneg logs t)
  · intro h
    subst h
    exact ⟨rfl, rfl⟩

set_option maxRecDepth 4000 in
/-- C5 (witness): totality and validity at a concrete non-empty input. -/
theorem C5_total_and_degenerate_witness :
    WellFormedLogs logsA
    ∧ ValidPolicySet (cfgZero.extract logsA "Mined Policy Set" "t0")
    ∧ (logsA = [] → (cfgZero.extract logsA "Mined Policy Set" "t0").source_logs = 0
        ∧ (cfgZero.extract logsA "Mined Policy Set" "t0").policies = []) :=
  ⟨by with_unfolding_all decide,
   C5_total_and_degenerate cfgZero logsA "Mined Policy Set" "t0"
     (by with_unfolding_all decide)⟩

/-- C6: raising any of the three thresholds (in particular exactly one of
them, the others fixed) never increases the number of returned policies. -/
theorem C6_threshold_monotone (cfg cfg' : PolicyExtractor) (logs : List BehaviorLog)
    (name now : String)
    (hs : cfg.min_support ≤ cfg'.min_support)
    (hc : cfg.min_confidence ≤ cfg'.min_confidence)
    (hl : cfg.min_lift ≤ cfg'.min_lift) :
    (cfg'.extract logs name now).policies.length
      ≤ (cfg.extract logs name now).policies.length := by
  rw [extract_policies_eq, extract_policies_eq,
      (sortByConfDesc_perm _).length_eq, (sortByConfDesc_perm _).length_eq]
  unfold minedPolicies
  rw [numberFrom_length, numberFrom_length]
  unfold survivingTriples
  rw [← List.countP_eq_length_filter, ← List.countP_eq_length_filter]
  refine List.countP_mono_left ?_
  intro t _ hpass
  rw [passes_iff] at hpass ⊢
  obtain ⟨h1, h2, h3⟩ := hpass
  exact ⟨le_trans hs h1, le_trans hc h2, le_trans hl h3⟩

set_option maxRecDepth 4000 in
/-- C6 (witness): monotonicity applied at `cfgZero ≤ cfgThird` on `logsB`. -/
theorem C6_threshold_monotone_witness :
    cfgZero.min_support ≤ cfgThird.min_support
    ∧ cfgZero.min_confidence ≤ cfgThird.min_confidence
    ∧ cfgZero.min_lift ≤ cfgThird.min_lift
    ∧ (cfgThird.extract logsB "Mined Policy Set" "t0").policies.length
        ≤ (cfgZero.extract logsB "Mined Policy Set" "t0").policies.length :=
  ⟨by with_unfolding_all decide, by with_unfolding_all decide, by with_unfolding_all decide,
   C6_threshold_monotone cfgZero cfgThird logsB "Mined Policy Set" "t0"
     (by with_unfolding_all decide) (by with_unfolding_all decide)
     (by with_unfolding_all decide)⟩

/-- C7: every emitted policy's description is exactly the f-string
`When {key}={value!r}, agents perform '{action}' with {confidence*100:.1f}%
confidence (support={support*100:.1f}%, lift={lift:.2f})` computed from the
un-rounded support/confidence/lift, whose 6-digit roundings are the stored
numeric fields. -/
theorem C7_description_exact (cfg : PolicyExtractor) (logs : List BehaviorLog)
    (name now : String) (p : MinedPolicy)
    (hp : p ∈ (cfg.extract logs name now).policies) :
    ∃ (k v a : String) (s c l : ℚ),
      p.antecedent = [(k, PyVal.vStr v)] ∧ p.consequent = a
      ∧ p.support = round6 s ∧ p.confidence = round6 c ∧ p.lift = round6 l
      ∧ p.description
          = "When " ++ k ++ "=" ++ pyReprStr v ++ ", agents perform '" ++ a ++ "' with "
            ++ formatFixed (c * 100) 1 ++ "% confidence (support="
            ++ formatFixed (s * 100) 1 ++ "%, lift=" ++ formatFixed l 2 ++ ")" := by
  rw [mem_extract_policies] at hp
  obtain ⟨t, _, _, _, _, hs, hc, hl, hant, hcons, hdesc⟩ := mined_policy_chars cfg logs p hp
  exact ⟨t.1.1, t.1.2.1, t.1.2.2, tripleSupport logs t, tripleConfidence logs t,
    tripleLift logs t, hant, hcons, hs, hc, hl, hdesc.trans rfl⟩

set_option maxRecDepth 4000 in
/-- C7 (witness): the description contract at the one policy mined from
`logsC`. -/
theorem C7_description_exact_witness :
    polC ∈ (cfgZero.extract logsC "Mined Policy Set" "t0").policies
    ∧ ∃ (k v a : String) (s c l : ℚ),
        polC.antecedent = [(k, PyVal.vStr v)] ∧ polC.consequent = a
        ∧ polC.support = round6 s ∧ polC.confidence = round6 c ∧ polC.lift = round6 l
        ∧ polC.description
            = "When " ++ k ++ "=" ++ pyReprStr v ++ ", agents perform '" ++ a ++ "' with "
              ++ formatFixed (c * 100) 1 ++ "% confidence (support="
              ++ formatFixed (s * 100) 1 ++ "%, lift=" ++ formatFixed l 2 ++ ")" := by
  have hh : ((cfgZero.extract logsC "Mined Policy Set" "t0").policies).head? = some polC := by
    with_unfolding_all decide
  obtain ⟨ys, hys⟩ := List.head?_eq_some_iff.mp hh
  have hmem : polC ∈ (cfgZero.extract logsC "Mined Policy Set" "t0").policies := by
    rw [hys]; exact List.mem_cons_self _ _
  exact ⟨hmem, C7_description_exact cfgZero logsC "Mined Policy Set" "t0" polC hmem⟩

set_option maxRecDepth 4000 in
/-- C8 (counterexample): `top_policies` with the (Python `int`) argument
`n = -1` on a two-policy set returns 1 policy, not `min(n, total) = -1`
policies — Python slice semantics drop `|n|` elements from the end for a
negative `n`. -/
theorem C8_counterexample :
    (psT.top_policies (-1)).length = 1
    ∧ ¬ (((psT.top_policies (-1)).length : Int)
          = min (-1 : Int) (psT.policies.length : Int)) := by
  with_unfolding_all decide

/-- C8 (amended): for every `n ≥ 0`, `top_policies` returns the length-
`min(n, total)` prefix of a freshly recomputed stable confidence-descending
sort of the stored policies (the original set, a value, is unchanged). -/
theorem C8_top_policies_spec (ps : PolicySet) (n : Int) (hn : 0 ≤ n) :
    ps.top_policies n = (sortByConfDesc ps.policies).take n.toNat
    ∧ (ps.top_policies n).length = min n.toNat ps.policies.length
    ∧ (ps.top_policies n).Pairwise (fun p q => q.confidence ≤ p.confidence)
    ∧ ∀ c : ℚ,
        ((sortByConfDesc ps.policies).filter (fun p => decide (p.confidence = c)))
          = ps.policies.filter (fun p => decide (p.confidence = c)) := by
  have h1 : ps.top_policies n = (sortByConfDesc ps.policies).take n.toNat := by
    unfold PolicySet.top_policies pySliceTo
    rw [if_pos hn]
  refine ⟨h1, ?_, ?_, fun c => sortByConfDesc_filter_conf _ c⟩
  · rw [h1, List.length_take, (sortByConfDesc_perm ps.policies).length_eq]
  · rw [h1]
    exact List.Pairwise.sublist (List.take_sublist _ _) (sortByConfDesc_pairwise _)

set_option maxRecDepth 4000 in
/-- C8 (witness): the amended top-N contract applied at `psT`, `n = 1`. -/
theorem C8_top_policies_spec_witness :
    (0 : Int) ≤ 1
    ∧ (psT.top_policies 1 = (sortByConfDesc psT.policies).take (1 : Int).toNat
       ∧ (psT.top_policies 1).length = min (1 : Int).toNat psT.policies.length
       ∧ (psT.top_policies 1).Pairwise (fun p q => q.confidence ≤ p.confidence)
       ∧ ∀ c : ℚ,
           ((sortByConfDesc psT.policies).filter (fun p => decide (p.confidence = c)))
             = psT.policies.filter (fun p => decide (p.confidence = c))) :=
  ⟨by decide, C8_top_policies_spec psT 1 (by decide)⟩

/-- C10: every successfully constructed BehaviorLog stores `log_id`,
`agent_id` and `action` with leading/trailing whitespace removed from the
supplied values. -/
theorem C10_identifiers_trimmed (lid aid act ts : String)
    (ctx : List (String × PyVal)) (out : String) (log : BehaviorLog)
    (h : mkBehaviorLog lid aid act ts ctx out = some log) :
    log.log_id = pyStrip lid ∧ log.agent_id = pyStrip aid
      ∧ log.action = pyStrip act := by
  unfold mkBehaviorLog at h
  by_cases hcond :
      ((pyStrip lid).isEmpty || (pyStrip aid).isEmpty || (pyStrip act).isEmpty)
  · rw [if_pos hcond] at h
    exact absurd h (by simp)
  · rw [if_neg hcond] at h
    have hlog := Option.some.inj h
    subst hlog
    exact ⟨rfl, rfl, rfl⟩

set_option maxRecDepth 4000 in
/-- C10 (witness): trimming at concrete padded identifiers. -/
theorem C10_identifiers_trimmed_witness :
    mkBehaviorLog "  log1 " " agent " " read " "t0" [] "success" = some logW
    ∧ (logW.log_id = pyStrip "  log1 " ∧ logW.agent_id = pyStrip " agent "
        ∧ logW.action = pyStrip " read ") := by
  have h : mkBehaviorLog "  log1 " " agent " " read " "t0" [] "success" = some logW := by
    with_unfolding_all decide
  exact ⟨h, C10_identifiers_trimmed _ _ _ _ _ _ _ h⟩

/-! ## Round-trip of the structured encoding -/

theorem decodePyVal_encodePyVal (v : PyVal) : decodePyVal (encodePyVal v) = some v := by
  cases v with
  | vStr s => rfl
  | vInt n => simp [encodePyVal, decodePyVal, Rat.den_intCast, Rat.num_intCast]
  | vBool b => rfl

theorem mapMOpt_map_eq_some {α β : Type} (g : α → β) (f : β → Option α) (l : List α)
    (h : ∀ x ∈ l, f (g x) = some x) : mapMOpt f (l.map g) = some l := by
  induction l with
  | nil => rfl
  | cons x xs ih =>
    simp only [List.map_cons, mapMOpt, h x (by simp), ih (fun y hy => h y (by simp [hy])),
      Option.bind_eq_bind, Option.some_bind]

theorem decodeAntecedent_encode (ante : List (String × PyVal)) :
    decodeAntecedent (Json.jObj (ante.map (fun kv => (kv.1, encodePyVal kv.2))))
      = some ante := by
  unfold decodeAntecedent
  refine mapMOpt_map_eq_some _ _ ante ?_
  intro kv _
  simp [decodePyVal_encodePyVal]

theorem decodePolicy_encodePolicy (p : MinedPolicy) (hp : ValidPolicy p) :
    decodePolicy (encodePolicy p) = some p := by
  obtain ⟨h1, h2, h3, h4, h5⟩ := hp
  simp only [decodePolicy, encodePolicy, jGet]
  simp only [reduceIte]
  simp [decodeStr, decodeFrac01, decodeNonneg, decodeAntecedent_encode,
    h1, h2, h3, h4, h5]

/-- C9: encoding a (valid) PolicySet to the generic structured document and
decoding it back reproduces every field — name, source_logs, generated_at,
and the policies array in order with every per-policy field. -/
theorem C9_roundtrip (ps : PolicySet) (h : ValidPolicySet ps) :
    decodePolicySet (encodePolicySet ps) = some ps := by
  simp only [decodePolicySet, encodePolicySet, jGet]
  simp only [reduceIte]
  simp [decodeStr, decodeNat, decodePolicies,
    mapMOpt_map_eq_some encodePolicy decodePolicy ps.policies
      (fun p hp => decodePolicy_encodePolicy p (h p hp)),
    Rat.den_natCast, Rat.num_natCast]

set_option maxRecDepth 4000 in
/-- C9 (witness): the round trip at the concrete two-policy set `psT`. -/
theorem C9_roundtrip_witness :
    ValidPolicySet psT ∧ decodePolicySet (encodePolicySet psT) = some psT :=
  ⟨by with_unfolding_all decide, C9_roundtrip psT (by with_unfolding_all decide)⟩
